import Mathlib

/-!
Shallow embedding of the file-client module (`salt/fileclient.py`) of the
repository, together with theorems settling the claims about it.

Python strings are modelled as lists of characters (`Str`); Python string
builtins (`lstrip`, `rstrip`, `strip`, `split`, `startswith`, slicing) are
modelled as explicit Lean functions with the exact CPython semantics the
source relies on.  `os.path.join` is modelled for POSIX ('/'-separated)
paths, which is the convention the module itself documents (the master
generating file lists "only runs on POSIX").  The filesystem, where needed,
is modelled explicitly (a list of existing paths, a map from path to file
contents, or a directory tree).
-/

namespace FileClient

/-- Python strings are finite character sequences. -/
abbrev Str := List Char

/-- Python `s.lstrip(chars)`: removes every leading character of `s` that
occurs anywhere in `chars` (a character *set*, not a literal string). -/
def pyLstrip (chars s : Str) : Str := s.dropWhile (fun c => chars.contains c)

/-- Python `s.rstrip(chars)`: removes every trailing character of `s` that
occurs anywhere in `chars`. -/
def pyRstrip (chars s : Str) : Str :=
  (s.reverse.dropWhile (fun c => chars.contains c)).reverse

/-- ASCII whitespace recognised by Python `str.strip()`. -/
def pyIsSpace (c : Char) : Bool :=
  c = ' ' || c = '\t' || c = '\n' || c = '\x0d' || c = '\x0b' || c = '\x0c'

/-- Python `s.strip()`: removes leading and trailing whitespace. -/
def pyStrip (s : Str) : Str :=
  ((s.dropWhile pyIsSpace).reverse.dropWhile pyIsSpace).reverse

/-- POSIX `os.path.join(a, b)` (two arguments): if `b` is absolute it wins;
otherwise `b` is appended to `a`, inserting a '/' unless `a` is empty or
already ends with '/'. -/
def pyJoin (a b : Str) : Str :=
  if b.head? = some '/' then b
  else if a.isEmpty || a.getLast? = some '/' then a ++ b
  else a ++ '/' :: b

/-- The `MinionError` exception raised by the module, carrying its message. -/
structure MinionError where
  msg : Str
deriving DecidableEq, Repr

/-- Decidable equality of `Except` values, used to evaluate the models on
concrete inputs. -/
instance instDecEqExcept {ε α : Type} [DecidableEq ε] [DecidableEq α] :
    DecidableEq (Except ε α) := fun a b =>
  match a, b with
  | Except.ok x, Except.ok y =>
    if h : x = y then isTrue (by rw [h])
    else isFalse (fun hh => by cases hh; exact h rfl)
  | Except.error x, Except.error y =>
    if h : x = y then isTrue (by rw [h])
    else isFalse (fun hh => by cases hh; exact h rfl)
  | Except.ok _, Except.error _ => isFalse (fun hh => by cases hh)
  | Except.error _, Except.ok _ => isFalse (fun hh => by cases hh)

/-- `Client._check_proto` (fileclient.py:52-58): raises `MinionError` unless
the path starts with `salt://`, otherwise returns `path[7:]`. -/
def check_proto (path : Str) : Except MinionError Str :=
  if !("salt://".data.isPrefixOf path) then
    Except.error ⟨"Unsupported path: ".data ++ path⟩
  else
    Except.ok (path.drop 7)

/-- The local destination `Client._cache_loc` (fileclient.py:78-96) yields:
`os.path.join(cachedir, 'files', env, path)`.  (The directory-creation and
umask side effects are not needed by any claim and are not modelled.) -/
def cache_loc (cachedir env path : Str) : Str :=
  pyJoin (pyJoin (pyJoin cachedir "files".data) env) path

/-- The environment files-cache candidate computed by `Client.is_cached`
(fileclient.py:229-230): `os.path.join(cachedir, 'files', env,
path.lstrip('salt://'))`.  Note the source really calls
`lstrip('salt://')`, which strips the leading character *set*. -/
def is_cached_filesdest (cachedir env path : Str) : Str :=
  pyJoin (pyJoin (pyJoin cachedir "files".data) env)
    (pyLstrip "salt://".data path)

/-- The localfiles-cache candidate computed by `Client.is_cached`
(fileclient.py:227-228): `os.path.join(cachedir, 'localfiles',
path.lstrip('/'))`. -/
def is_cached_localdest (cachedir path : Str) : Str :=
  pyJoin (pyJoin cachedir "localfiles".data) (pyLstrip "/".data path)

/-- `Client.is_cached` (fileclient.py:222-237).  The filesystem is modelled
as the list `fs` of paths for which `os.path.exists` is true.  Returns the
files-cache candidate if it exists, else the localfiles candidate if it
exists, else the empty string. -/
def is_cached (cachedir : Str) (fs : List Str) (path env : Str) : Str :=
  let localsfilesdest := is_cached_localdest cachedir path
  let filesdest := is_cached_filesdest cachedir env path
  if fs.contains filesdest then filesdest
  else if fs.contains localsfilesdest then localsfilesdest
  else []

/-- Result of `hash_file`: either the empty dict or a dict with keys
`hsum` and `hash_type`. -/
inductive HashRet where
  | empty
  | digest (hsum : Str) (hash_type : Str)
deriving DecidableEq, Repr

/-- `LocalClient._find_file` (fileclient.py:435-452), returning the value of
`fnd['path']`.  The filesystem is modelled by `fs : Str → Option Str`
mapping each existing regular file to its contents (`os.path.isfile p` is
`(fs p).isSome`); `file_roots` models the `opts['file_roots']` dict. -/
def find_file_go (fs : Str → Option Str) (path : Str) :
    List Str → Str
  | [] => []
  | root :: rest =>
    let full := pyJoin root path
    if (fs full).isSome then full else find_file_go fs path rest

/-- `LocalClient._find_file`: the escaped-path marker `|` is stripped, then
the roots of the environment are searched in order; the first root holding
the file wins; a missing environment or no match yields the empty path. -/
def find_file (fs : Str → Option Str)
    (file_roots : Str → Option (List Str)) (path env : Str) : Str :=
  match file_roots env with
  | none => []
  | some roots =>
    let path := if path.head? = some '|' then path.drop 1 else path
    find_file_go fs path roots

/-- `LocalClient.hash_file` (fileclient.py:508-535).  `md5fn` models
`hashlib.md5(...).hexdigest()` and `algfn` models
`getattr(hashlib, opts['hash_type'])(...).hexdigest()`; both are opaque
collaborators.  When `_check_proto` raises, the path is treated as an ad hoc
local file: absent gives the empty dict (a warning is logged, nothing is
raised), present gives an md5 digest.  Otherwise the path is resolved
through the roots; no match gives the empty dict, a match gives a digest
with the configured algorithm.  (Reading a found file is modelled as
`(fs _).getD []`; `find_file` only returns paths `fs` maps to `some`.) -/
def hash_file_local (md5fn : Str → Str) (algfn : Str → Str → Str)
    (fs : Str → Option Str) (file_roots : Str → Option (List Str))
    (hash_type : Str) (path env : Str) : HashRet :=
  match check_proto path with
  | Except.error _ =>
    match fs path with
    | none => HashRet.empty
    | some content => HashRet.digest (md5fn content) "md5".data
  | Except.ok p =>
    let found := find_file fs file_roots p env
    if found.isEmpty then HashRet.empty
    else HashRet.digest (algfn hash_type ((fs found).getD [])) hash_type

/-- Return value of `RemoteClient.hash_file`: a dict, or the empty string
that the transport-timeout handler returns. -/
inductive RHashRet where
  | timeoutEmptyStr
  | dict (h : HashRet)
deriving DecidableEq, Repr

/-- `RemoteClient.hash_file` (fileclient.py:719-749).  The ad hoc branch is
identical to the local client's; the scheme-qualified branch issues one
`_file_hash` request, modelled by `serve` (`none` = transport timeout,
which the source converts to the empty string). -/
def hash_file_remote (md5fn : Str → Str) (fs : Str → Option Str)
    (serve : Str → Str → Option HashRet) (path env : Str) : RHashRet :=
  match check_proto path with
  | Except.error _ =>
    match fs path with
    | none => RHashRet.dict HashRet.empty
    | some content => RHashRet.dict (HashRet.digest (md5fn content) "md5".data)
  | Except.ok p =>
    match serve p env with
    | none => RHashRet.timeoutEmptyStr
    | some h => RHashRet.dict h

/-- Opaque digest stub used only to instantiate the hash collaborators in
concrete evaluations. -/
def md5Stub : Str → Str := fun s => 'm' :: s

/-- Opaque configured-algorithm stub for concrete evaluations. -/
def algStub : Str → Str → Str := fun _ s => 'a' :: s

/-- An empty filesystem: no file exists. -/
def fsEmpty : Str → Option Str := fun _ => none

/-- The file-selection logic of `Client.get_dir` (fileclient.py:274-294):
the scheme is stripped, trailing slashes removed, and a listed file `fn_`
is selected iff `fn_.startswith(path)` and the character of `fn_` at index
`len(path)` exists and is `'/'` (an `IndexError` skips the file). -/
def get_dir_select (path : Str) (files : List Str) :
    Except MinionError (List Str) := do
  let p := pyRstrip "/".data (← check_proto path)
  pure (files.filter (fun fn => p.isPrefixOf fn && fn.get? p.length == some '/'))

/-- The file-selection logic of `Client.cache_dir` (fileclient.py:144-160):
the scheme is stripped, a trailing `'/'` appended if missing, and a listed
file `fn_` is selected iff `fn_.strip()` is non-empty and
`fn_.startswith(path)`. -/
def cache_dir_select (path : Str) (files : List Str) :
    Except MinionError (List Str) := do
  let p0 ← check_proto path
  let p := if p0.getLast? = some '/' then p0 else p0 ++ ['/']
  pure (files.filter (fun fn => !(pyStrip fn).isEmpty && p.isPrefixOf fn))

/-- CPython `s.split(sep)` for a one-character separator `c`: splits at
every occurrence of `c`; adjacent separators produce empty pieces and
`''.split(c) = ['']`.  `List.splitOn` has exactly these semantics. -/
def pySplit (c : Char) (s : Str) : List Str := s.splitOn c

/-- `Client.cache_files` (fileclient.py:118-128): accepts either a single
string or a list of paths; a string is split on commas; each resulting
path is passed to `cache_file` (modelled by the opaque `cache_file_fn`)
and the results are collected in order. -/
def cache_files (cache_file_fn : Str → Str → Str)
    (paths : Sum Str (List Str)) (env : Str) : List Str :=
  let ps := match paths with
    | Sum.inl s => pySplit ',' s
    | Sum.inr l => l
  ps.map (fun p => cache_file_fn p env)

/-- One decrypted reply of the master to a `_serve_file` request
(fileclient.py:623-629): a chunk of `data` (possibly empty), the
authority-asserted `dest`, the optional `hsum` integrity digest, the
optional `hash_type` (the source reads it with default `md5`), and the
optional `gzip` marker. -/
structure Reply where
  data : Str
  dest : Str
  hsum : Option Str
  hash_type : Option Str
  gzip : Option Nat
deriving DecidableEq, Repr

/-- The per-call state of `RemoteClient.get_file`'s fetch loop: the
`d_tries` retry counter, whether the destination file handle `fn_` is
open, the bytes written to the destination so far (`buf`; the handle is
opened with `wb+` so it starts empty, and `fn_.tell()` is `buf.length`),
and the current destination path. -/
structure FetchState where
  d_tries : Nat
  fnOpen : Bool
  buf : Str
  dest : Str
deriving DecidableEq, Repr

/-- A Python return value of `get_file`: the literal `False` or a string. -/
inductive PyRet where
  | fls
  | str (s : Str)
deriving DecidableEq, Repr

/-- Which exit path of `get_file` produced the result: the normal loop
exit (`break` then close-and-return-dest), the `SaltReqTimeoutError`
handler (`return ''`), or the missing-destination-directory early return
(`return False`). -/
inductive ExitKind where
  | normal
  | timedOut
  | noDestDir
deriving DecidableEq, Repr

/-- The observable outcome of a `RemoteClient.get_file` call: the Python
return value, the exit path taken, whether the destination file handle was
still open when the call returned, the bytes present in the destination
file, the final `d_tries` counter, and the sequence of `loc` offsets sent
to the master, in request order. -/
structure GFResult where
  ret : PyRet
  kind : ExitKind
  fnOpenAtReturn : Bool
  fileBytes : Str
  d_tries : Nat
  locs : List Nat
deriving DecidableEq, Repr

/-- The `while True` loop of `RemoteClient.get_file` (fileclient.py:618-669),
including the close-and-return epilogue.  `uncompress` models
`salt.utils.gzip_util.uncompress`, `hashFn algName bytes` models
`getattr(hashlib, algName)(bytes).hexdigest()`, and
`serve i loc` models the `i`-th encrypted `_serve_file` round trip at
offset `loc` (`none` = `SaltReqTimeoutError`).  `fuel` bounds the number
of iterations modelled; `none` means the loop was still running when the
fuel ran out.  Filesystem side effects other than the bytes of the
destination file (umask, `makedirs`, `rm_rf` of a stale directory) are not
modelled; reading the destination back for the integrity check returns
the bytes written so far. -/
def fetch_loop (uncompress : Str → Str) (hashFn : Str → Str → Str)
    (cachedir env : Str) (serve : Nat → Nat → Option Reply) :
    Nat → Nat → FetchState → List Nat → Option GFResult
  | 0, _, _, _ => none
  | fuel + 1, i, st, locs =>
    -- load['loc'] = 0 if the handle is not open, else fn_.tell()
    let loc := if st.fnOpen then st.buf.length else 0
    let locs := locs ++ [loc]
    match serve i loc with
    | none =>
      -- except SaltReqTimeoutError: return ''  (fn_ is NOT closed here)
      some ⟨PyRet.str [], ExitKind.timedOut, st.fnOpen, st.buf, st.d_tries, locs⟩
    | some r =>
      if r.data.isEmpty then
        -- zero-byte file on the master: written through _cache_loc
        let st := if !st.fnOpen && !r.dest.isEmpty then
            { st with dest := cache_loc cachedir env r.dest, buf := [] }
          else st
        match r.hsum with
        | some expected =>
          if st.d_tries < 3 then
            let st := { st with d_tries := st.d_tries + 1 }
            let dig := hashFn (r.hash_type.getD "md5".data) st.buf
            if dig ≠ expected then
              fetch_loop uncompress hashFn cachedir env serve fuel (i + 1) st locs
            else
              some ⟨PyRet.str st.dest, ExitKind.normal, false, st.buf,
                st.d_tries, locs⟩
          else
            some ⟨PyRet.str st.dest, ExitKind.normal, false, st.buf,
              st.d_tries, locs⟩
        | none =>
          some ⟨PyRet.str st.dest, ExitKind.normal, false, st.buf,
            st.d_tries, locs⟩
      else
        -- first data chunk with no caller destination: open the cache file
        let st := if !st.fnOpen then
            (⟨st.d_tries, true, [], cache_loc cachedir env r.dest⟩ : FetchState)
          else st
        let chunk := match r.gzip with
          | some n => if n ≠ 0 then uncompress r.data else r.data
          | none => r.data
        fetch_loop uncompress hashFn cachedir env serve fuel (i + 1)
          { st with buf := st.buf ++ chunk } locs

/-- `RemoteClient.get_file` (fileclient.py:592-669).  `dest` is the
caller-supplied destination (empty = none), `destdirExists` models
`os.path.isdir(os.path.dirname(dest))`, consulted only when `dest` is
non-empty.  The `gzip` request flag only changes the request payload, so
it does not appear in the loop.  Scheme checking may raise `MinionError`
(the `Except.error` case). -/
def get_file (uncompress : Str → Str) (hashFn : Str → Str → Str)
    (cachedir : Str) (serve : Nat → Nat → Option Reply)
    (path dest : Str) (makedirs : Bool) (env : Str)
    (destdirExists : Bool) (fuel : Nat) :
    Except MinionError (Option GFResult) := do
  let _p ← check_proto path
  if !dest.isEmpty then
    if !destdirExists && !makedirs then
      pure (some ⟨PyRet.fls, ExitKind.noDestDir, false, [], 0, []⟩)
    else
      -- fn_ = salt.utils.fopen(dest, 'wb+') truncates the destination
      pure (fetch_loop uncompress hashFn cachedir env serve fuel 0
        ⟨0, true, [], dest⟩ [])
  else
    pure (fetch_loop uncompress hashFn cachedir env serve fuel 0
      ⟨0, false, [], []⟩ [])

/-- Identity stub for the opaque gzip decompressor in concrete runs. -/
def idStr : Str → Str := fun s => s

/-- Digest stub for concrete runs: tags the hashed bytes, so its value on
`a` differs from the fixed digest string `deadbeef` used by the mock
master. -/
def hashStub : Str → Str → Str := fun _ s => 'h' :: s

/-- Mock master for C1: serves the one-byte file `a` from offset 0 and,
from any other offset, an empty chunk carrying a digest `deadbeef` that
never matches the downloaded content. -/
def serveMismatch : Nat → Nat → Option Reply := fun _ loc =>
  if loc = 0 then some ⟨"a".data, "f.txt".data, none, none, none⟩
  else some ⟨[], "f.txt".data, some "deadbeef".data, some "md5".data, none⟩

/-- Mock master for C2: serves the one-chunk file `x` as `tops/file`. -/
def serveTops : Nat → Nat → Option Reply := fun _ loc =>
  if loc = 0 then some ⟨"x".data, "tops/file".data, none, none, none⟩
  else some ⟨[], "tops/file".data, none, none, none⟩

/-- Mock master for C7/C8 timeout runs: every request times out. -/
def serveTimeout : Nat → Nat → Option Reply := fun _ _ => none

inductive FTree where
  | node (subdirs : List (Str × FTree)) (files : List Str)
deriving Repr

instance : Inhabited FTree := ⟨.node [] []⟩

def FTree.subs : FTree → List (Str × FTree)
  | .node s _ => s

def FTree.fils : FTree → List Str
  | .node _ f => f

def relChild (parent name : Str) : Str :=
  if parent = ".".data then name else parent ++ '/' :: name

abbrev Entry := Str × List Str × List Str

mutual
def walkRel (rel : Str) : FTree → List Entry
  | .node subs files =>
    (rel, subs.map Prod.fst, files) :: walkList rel subs

def walkList (rel : Str) : List (Str × FTree) → List Entry
  | [] => []
  | s :: rest => walkRel (relChild rel s.1) s.2 ++ walkList rel rest
end

def nodupB : List Str → Bool
  | [] => true
  | x :: xs => !xs.contains x && nodupB xs

mutual
def wfT : FTree → Bool
  | .node subs _ => nodupB (subs.map Prod.fst) && wfList subs

def wfList : List (Str × FTree) → Bool
  | [] => true
  | s :: rest => wfT s.2 && wfList rest
end

def dirAt : FTree → List Str → Option FTree
  | t, [] => some t
  | t, n :: rest =>
    match t.subs.find? (fun s => s.1 == n) with
    | some s => dirAt s.2 rest
    | none => none

def relFold (rel : Str) (segs : List Str) : Str := segs.foldl relChild rel

def file_list_emptydirs (file_roots : Str → Option (List FTree))
    (env : Str) : List Str :=
  match file_roots env with
  | none => []
  | some roots => roots.flatMap (fun t =>
      (walkRel ".".data t).filterMap (fun e =>
        if e.2.1.isEmpty && e.2.2.isEmpty then some e.1 else none))

def frEx : Str → Option (List FTree) := fun e =>
  if e = "base".data then
    some [FTree.node
      [("a".data, FTree.node [("b".data, FTree.node [] [])] []),
       ("c".data, FTree.node [] ["f.txt".data])] []]
  else none

theorem check_proto_ok_of_append (rest : Str) :
    check_proto ("salt://".data ++ rest) = Except.ok rest := by
  unfold check_proto
  have hp : "salt://".data.isPrefixOf ("salt://".data ++ rest) = true := by
    simp [List.isPrefixOf_iff_prefix]
  rw [hp]
  simp only [Bool.not_true, Bool.false_eq_true, if_false]
  have : ("salt://".data ++ rest).drop 7 = rest := by
    have h7 : ("salt://".data).length = 7 := by decide
    rw [← h7, List.drop_left]
  rw [this]

/-- C5: `_check_proto` fails with a `MinionError` (the spec's
`PathSchemeError`) on every path that does not start with `salt://`, and on
every path that does, removes the prefix exactly once: it succeeds with
result `r` precisely when the input is `"salt://" ++ r`. -/
theorem check_proto_spec (p : Str) :
    ("salt://".data.isPrefixOf p = false →
      check_proto p = Except.error ⟨"Unsupported path: ".data ++ p⟩) ∧
    (∀ r : Str, check_proto p = Except.ok r ↔ p = "salt://".data ++ r) := by
  constructor
  · intro h
    unfold check_proto
    rw [h]
    rfl
  · intro r
    constructor
    · intro h
      unfold check_proto at h
      by_cases hp : "salt://".data.isPrefixOf p = true
      · rw [hp] at h
        simp only [Bool.not_true, Bool.false_eq_true, if_false] at h
        obtain ⟨t, ht⟩ := List.isPrefixOf_iff_prefix.mp hp
        have hdrop : p.drop 7 = t := by
          rw [← ht]
          have h7 : ("salt://".data).length = 7 := by decide
          rw [← h7, List.drop_left]
        rw [hdrop] at h
        cases h
        exact ht.symm
      · rw [Bool.eq_false_iff.mpr hp] at h
        simp at h
    · intro h
      rw [h]
      exact check_proto_ok_of_append r

/-- Witness for C5 at a concrete input: stripping succeeds on
`salt://a/b` and yields `a/b`; it fails on the bare path `a/b`. -/
theorem check_proto_spec_witness :
    check_proto "salt://a/b".data = Except.ok "a/b".data ∧
    check_proto "a/b".data =
      Except.error ⟨"Unsupported path: a/b".data⟩ := by
  constructor
  · exact ((check_proto_spec "salt://a/b".data).2 "a/b".data).mpr (by decide)
  · exact (check_proto_spec "a/b".data).1 (by decide)

/-- C3 counterexample: with both cache entries present for path `x`,
`is_cached` returns the *files*-cache path, not the localfiles one, so the
claimed "localfiles first" order is false on the code. -/
theorem is_cached_order_cex :
    is_cached "/c".data
        ["/c/localfiles/x".data, "/c/files/base/x".data] "x".data "base".data
      = "/c/files/base/x".data ∧
    "/c/files/base/x".data ≠ "/c/localfiles/x".data := by
  constructor
  · decide
  · decide

/-- C3 amended: for every path and environment, `is_cached` checks the
environment's files cache first and the localfiles cache second, returning
the first existing match, or an empty string (never an error) when neither
exists. -/
theorem is_cached_checks_files_first (cachedir : Str) (fs : List Str)
    (path env : Str) :
    (fs.contains (is_cached_filesdest cachedir env path) = true →
      is_cached cachedir fs path env = is_cached_filesdest cachedir env path) ∧
    (fs.contains (is_cached_filesdest cachedir env path) = false →
      fs.contains (is_cached_localdest cachedir path) = true →
      is_cached cachedir fs path env = is_cached_localdest cachedir path) ∧
    (fs.contains (is_cached_filesdest cachedir env path) = false →
      fs.contains (is_cached_localdest cachedir path) = false →
      is_cached cachedir fs path env = []) := by
  refine ⟨fun h1 => ?_, fun h1 h2 => ?_, fun h1 h2 => ?_⟩
  · simp only [is_cached, h1, if_true]
  · simp only [is_cached, h1, h2, Bool.false_eq_true, if_false, if_true]
  · simp only [is_cached, h1, h2, Bool.false_eq_true, if_false]

/-- Witness for the amended C3 theorem at concrete inputs: all three cases
(files hit, localfiles hit, miss) behave as stated. -/
theorem is_cached_checks_files_first_witness :
    is_cached "/c".data ["/c/files/base/x".data] "x".data "base".data
      = "/c/files/base/x".data ∧
    is_cached "/c".data ["/c/localfiles/x".data] "x".data "base".data
      = "/c/localfiles/x".data ∧
    is_cached "/c".data [] "x".data "base".data = [] := by
  refine ⟨?_, ?_, ?_⟩
  · exact (is_cached_checks_files_first "/c".data ["/c/files/base/x".data]
      "x".data "base".data).1 (by decide)
  · exact (is_cached_checks_files_first "/c".data ["/c/localfiles/x".data]
      "x".data "base".data).2.1 (by decide) (by decide)
  · exact (is_cached_checks_files_first "/c".data []
      "x".data "base".data).2.2 (by decide) (by decide)

/-- C4 counterexample: for the non-scheme-qualified path `x` absent from
the filesystem, both `hash_file` implementations return the empty dict
normally — no `FileNotFoundError` (or any exception) is raised, contrary
to the claim. -/
theorem hash_file_absent_cex :
    hash_file_local md5Stub algStub fsEmpty (fun _ => none)
        "md5".data "x".data "base".data = HashRet.empty ∧
    hash_file_remote md5Stub fsEmpty (fun _ _ => none)
        "x".data "base".data = RHashRet.dict HashRet.empty := by
  constructor
  · rfl
  · rfl

/-- C4 amended: a path that is not scheme-qualified is treated as an ad hoc
local filesystem path; if the file is absent, `hash_file` returns an empty
dict (logging a warning, raising nothing), and if it exists, computes a
digest with the fixed default algorithm md5. -/
theorem hash_file_adhoc (md5fn : Str → Str) (algfn : Str → Str → Str)
    (fs : Str → Option Str) (file_roots : Str → Option (List Str))
    (serve : Str → Str → Option HashRet) (hash_type path env : Str)
    (h : "salt://".data.isPrefixOf path = false) :
    (fs path = none →
      hash_file_local md5fn algfn fs file_roots hash_type path env
          = HashRet.empty ∧
      hash_file_remote md5fn fs serve path env
          = RHashRet.dict HashRet.empty) ∧
    (∀ c, fs path = some c →
      hash_file_local md5fn algfn fs file_roots hash_type path env
          = HashRet.digest (md5fn c) "md5".data ∧
      hash_file_remote md5fn fs serve path env
          = RHashRet.dict (HashRet.digest (md5fn c) "md5".data)) := by
  have herr : check_proto path
      = Except.error ⟨"Unsupported path: ".data ++ path⟩ :=
    (check_proto_spec path).1 h
  constructor
  · intro habs
    constructor
    · simp only [hash_file_local, herr, habs]
    · simp only [hash_file_remote, herr, habs]
  · intro c hc
    constructor
    · simp only [hash_file_local, herr, hc]
    · simp only [hash_file_remote, herr, hc]

/-- Witness for the amended C4 theorem: with only the file `y` (contents
`ab`) on disk, hashing absent `x` gives the empty dict and hashing `y`
gives its md5 digest, in both implementations. -/
theorem hash_file_adhoc_witness :
    (hash_file_local md5Stub algStub
        (fun p => if p = "y".data then some "ab".data else none)
        (fun _ => none) "md5".data "x".data "base".data = HashRet.empty ∧
      hash_file_remote md5Stub
        (fun p => if p = "y".data then some "ab".data else none)
        (fun _ _ => none) "x".data "base".data
          = RHashRet.dict HashRet.empty) ∧
    (hash_file_local md5Stub algStub
        (fun p => if p = "y".data then some "ab".data else none)
        (fun _ => none) "md5".data "y".data "base".data
          = HashRet.digest (md5Stub "ab".data) "md5".data ∧
      hash_file_remote md5Stub
        (fun p => if p = "y".data then some "ab".data else none)
        (fun _ _ => none) "y".data "base".data
          = RHashRet.dict (HashRet.digest (md5Stub "ab".data) "md5".data)) := by
  constructor
  · exact (hash_file_adhoc md5Stub algStub
      (fun p => if p = "y".data then some "ab".data else none)
      (fun _ => none) (fun _ _ => none) "md5".data "x".data "base".data
      (by decide)).1 (by decide)
  · exact (hash_file_adhoc md5Stub algStub
      (fun p => if p = "y".data then some "ab".data else none)
      (fun _ => none) (fun _ _ => none) "md5".data "y".data "base".data
      (by decide)).2 "ab".data (by decide)

/-- C6: with listed files `foo.txt`, `foo/bar.txt`, `foobar/baz.txt` and
directory prefix `salt://foo`, both `get_dir` and `cache_dir` select
exactly `foo/bar.txt`: `foo.txt` and `foobar/baz.txt` are excluded by the
`/`-boundary check. -/
theorem dir_select_foo :
    get_dir_select "salt://foo".data
        ["foo.txt".data, "foo/bar.txt".data, "foobar/baz.txt".data]
      = Except.ok ["foo/bar.txt".data] ∧
    cache_dir_select "salt://foo".data
        ["foo.txt".data, "foo/bar.txt".data, "foobar/baz.txt".data]
      = Except.ok ["foo/bar.txt".data] := by
  constructor
  · rfl
  · rfl

/-- C10: `cache_files` accepts a sequence of paths, which it caches in
input order; a single string is first split on commas and each piece is
cached as a separate path, so a comma-joined string of comma-free paths
yields exactly the per-path results, in input order. -/
theorem cache_files_spec (cache_file_fn : Str → Str → Str) (env : Str)
    (ps : List Str) (hne : ps ≠ []) (h : ∀ p ∈ ps, ',' ∉ p) :
    cache_files cache_file_fn (Sum.inl ([','].intercalate ps)) env
        = ps.map (fun p => cache_file_fn p env) ∧
    ∀ l : List Str, cache_files cache_file_fn (Sum.inr l) env
        = l.map (fun p => cache_file_fn p env) := by
  constructor
  · simp only [cache_files, pySplit]
    rw [List.splitOn_intercalate ps ',' h hne]
  · intro l
    rfl

/-- Witness for C10: caching the string `a,b/c,` splits into the three
pieces `a`, `b/c` and the empty path, cached in that order. -/
theorem cache_files_spec_witness :
    cache_files (fun p _ => 'r' :: p) (Sum.inl "a,b/c,".data) "base".data
        = ["ra".data, "rb/c".data, "r".data] ∧
    cache_files (fun p _ => 'r' :: p)
        (Sum.inr ["a".data, "b/c".data, []]) "base".data
        = ["ra".data, "rb/c".data, "r".data] := by
  have h := cache_files_spec (fun p _ => 'r' :: p) "base".data
    ["a".data, "b/c".data, []] (by decide) (by decide)
  constructor
  · have h1 := h.1
    have he : ([','].intercalate ["a".data, "b/c".data, ([] : Str)])
        = "a,b/c,".data := by decide
    rw [he] at h1
    exact h1
  · exact h.2 ["a".data, "b/c".data, []]

/-- C1 (failing-input evaluation): fetching `salt://f.txt` to the
caller-supplied destination `/tmp/out` against a master whose digest never
matches.  The run terminates after exactly 3 verification attempts
(`d_tries = 3`) and returns the last-downloaded content `a` at `/tmp/out`
without raising — but the offsets requested are `[0, 1, 1, 1, 1]`: every
retry re-enters the loop at the current offset `fn_.tell() = 1`, never at
offset zero, so nothing is ever re-downloaded, contradicting the claimed
"full retry of the entire fetch loop from offset zero" (and the source's
own comment "redownload the file"). -/
theorem get_file_mismatch_retry_eval :
    get_file idStr hashStub "/c".data serveMismatch
        "salt://f.txt".data "/tmp/out".data false "base".data true 10
      = Except.ok (some ⟨PyRet.str "/tmp/out".data, ExitKind.normal, false,
          "a".data, 3, [0, 1, 1, 1, 1]⟩) := by
  decide

/-- C2 (failing-input evaluation): with no caller destination,
`cache_file('salt://tops/file')` (which routes to `get_file`) writes the
file to `/c/files/base/tops/file` — yet `is_cached('salt://tops/file')`
returns the empty string even when exactly that file exists, because
`path.lstrip('salt://')` strips every leading character in the set
`{s,a,l,t,:,/}` and yields `ops/file`.  (On a fresh cache `is_cached` also
returns the empty string, as the claim's first half states.) -/
theorem cache_file_is_cached_roundtrip_eval :
    get_file idStr hashStub "/c".data serveTops
        "salt://tops/file".data [] false "base".data true 10
      = Except.ok (some ⟨PyRet.str "/c/files/base/tops/file".data,
          ExitKind.normal, false, "x".data, 0, [0, 1]⟩) ∧
    is_cached "/c".data ["/c/files/base/tops/file".data]
        "salt://tops/file".data "base".data = [] ∧
    is_cached "/c".data [] "salt://tops/file".data "base".data = [] := by
  refine ⟨by decide, by decide, by decide⟩

theorem fetch_loop_cases (uncompress : Str → Str) (hashFn : Str → Str → Str)
    (cachedir env : Str) (serve : Nat → Nat → Option Reply) :
    ∀ (fuel i : Nat) (st : FetchState) (locs : List Nat) (r : GFResult),
    fetch_loop uncompress hashFn cachedir env serve fuel i st locs = some r →
    r.kind ≠ ExitKind.noDestDir ∧
    (r.kind = ExitKind.normal → r.fnOpenAtReturn = false) ∧
    (r.kind = ExitKind.timedOut → r.ret = PyRet.str []) := by
  intro fuel
  induction fuel with
  | zero =>
    intro i st locs r h
    simp [fetch_loop] at h
  | succ n ih =>
    intro i st locs r h
    simp only [fetch_loop] at h
    repeat' split at h
    all_goals
      first
        | exact ih _ _ _ r h
        | (injection h with h2; subst h2; refine ⟨?_, ?_, ?_⟩ <;> simp)

/-- C7 counterexample: fetching to the caller-supplied destination
`/tmp/out` (whose parent exists), a transport timeout on the very first
request makes `get_file` return the empty string with the destination file
handle still open (`fnOpenAtReturn = true`): the handle is not closed on
the timeout exit path, so the claim that every handle is closed on every
exit path is false on the code. -/
theorem get_file_timeout_handle_leak_cex :
    get_file idStr hashStub "/c".data serveTimeout "salt://f".data
        "/tmp/out".data false "base".data true 5
      = Except.ok (some ⟨PyRet.str [], ExitKind.timedOut, true, [], 0, [0]⟩) := by
  decide

/-- C7 amended: every destination file handle opened during
`RemoteClient.get_file`'s request/reply loop is closed before the call
returns on every exit path *except* the transport-timeout return, where an
already-opened handle is left open; in particular the normal exit (which
covers all hash-mismatch retry paths) and the missing-directory `False`
return never leave a handle open. -/
theorem get_file_closes_handle_unless_timeout (uncompress : Str → Str)
    (hashFn : Str → Str → Str) (cachedir : Str)
    (serve : Nat → Nat → Option Reply) (path dest : Str) (makedirs : Bool)
    (env : Str) (destdirExists : Bool) (fuel : Nat) (r : GFResult)
    (h : get_file uncompress hashFn cachedir serve path dest makedirs env
        destdirExists fuel = Except.ok (some r))
    (hk : r.kind ≠ ExitKind.timedOut) :
    r.fnOpenAtReturn = false := by
  unfold get_file at h
  cases hc : check_proto path with
  | error e => rw [hc] at h; simp [Bind.bind, Except.bind] at h
  | ok p =>
    rw [hc] at h
    simp only [Bind.bind, Except.bind, pure, Except.pure] at h
    split at h
    · split at h
      · injection h with h2
        injection h2 with h3
        subst h3
        rfl
      · injection h with h2
        rcases (fetch_loop_cases uncompress hashFn cachedir env serve
          fuel 0 ⟨0, true, [], dest⟩ [] r h2) with ⟨hnd, hnorm, _⟩
        cases hkind : r.kind with
        | normal => exact hnorm hkind
        | timedOut => exact absurd hkind hk
        | noDestDir => exact absurd hkind hnd
    · injection h with h2
      rcases (fetch_loop_cases uncompress hashFn cachedir env serve
        fuel 0 ⟨0, false, [], []⟩ [] r h2) with ⟨hnd, hnorm, _⟩
      cases hkind : r.kind with
      | normal => exact hnorm hkind
      | timedOut => exact absurd hkind hk
      | noDestDir => exact absurd hkind hnd

/-- Witness for the amended C7 theorem: the successful concrete run of
`get_file` against `serveTops` exits normally, and the theorem applied to
it yields that the handle is closed at return. -/
theorem get_file_closes_handle_unless_timeout_witness :
    (⟨PyRet.str "/c/files/base/tops/file".data, ExitKind.normal, false,
        "x".data, 0, [0, 1]⟩ : GFResult).fnOpenAtReturn = false :=
  get_file_closes_handle_unless_timeout idStr hashStub "/c".data serveTops
    "salt://tops/file".data [] false "base".data true 10
    ⟨PyRet.str "/c/files/base/tops/file".data, ExitKind.normal, false,
      "x".data, 0, [0, 1]⟩ (by decide) (by decide)

/-- C8: a transport timeout at any point in the request loop makes
`get_file` return the empty string; the value `False` is returned exactly
when a caller-supplied destination's parent directory is missing and
`makedirs` was not requested, and in that case no request is sent
(`locs = []`). -/
theorem get_file_timeout_vs_false (uncompress : Str → Str)
    (hashFn : Str → Str → Str) (cachedir : Str)
    (serve : Nat → Nat → Option Reply) (path dest : Str) (makedirs : Bool)
    (env : Str) (destdirExists : Bool) (fuel : Nat) (r : GFResult)
    (h : get_file uncompress hashFn cachedir serve path dest makedirs env
        destdirExists fuel = Except.ok (some r)) :
    (r.kind = ExitKind.noDestDir ↔
      (dest ≠ [] ∧ destdirExists = false ∧ makedirs = false)) ∧
    (r.kind = ExitKind.noDestDir → r.ret = PyRet.fls ∧ r.locs = []) ∧
    (r.kind = ExitKind.timedOut → r.ret = PyRet.str []) := by
  unfold get_file at h
  cases hc : check_proto path with
  | error e => rw [hc] at h; simp [Bind.bind, Except.bind] at h
  | ok p =>
    rw [hc] at h
    simp only [Bind.bind, Except.bind, pure, Except.pure] at h
    split at h
    · rename_i hdest
      have hdne : dest ≠ [] := by
        intro hnil
        subst hnil
        simp at hdest
      split at h
      · rename_i hdir
        have hdd : destdirExists = false := by
          revert hdir
          cases destdirExists <;> cases makedirs <;> decide
        have hmk : makedirs = false := by
          revert hdir
          cases destdirExists <;> cases makedirs <;> decide
        injection h with h2
        injection h2 with h3
        subst h3
        exact ⟨⟨fun _ => ⟨hdne, hdd, hmk⟩, fun _ => rfl⟩,
          fun _ => ⟨rfl, rfl⟩, fun hk => absurd hk (by decide)⟩
      · rename_i hdir
        injection h with h2
        rcases (fetch_loop_cases uncompress hashFn cachedir env serve
          fuel 0 ⟨0, true, [], dest⟩ [] r h2) with ⟨hnd, _, hto⟩
        refine ⟨⟨fun hk => absurd hk hnd, fun hcond => ?_⟩,
          fun hk => absurd hk hnd, hto⟩
        exfalso
        rcases hcond with ⟨_, hde, hmk⟩
        rw [hde, hmk] at hdir
        exact hdir rfl
    · rename_i hdest
      have hde : dest = [] := by
        by_contra hne
        apply hdest
        cases dest with
        | nil => exact absurd rfl hne
        | cons a as => rfl
      injection h with h2
      rcases (fetch_loop_cases uncompress hashFn cachedir env serve
        fuel 0 ⟨0, false, [], []⟩ [] r h2) with ⟨hnd, _, hto⟩
      exact ⟨⟨fun hk => absurd hk hnd, fun hcond => absurd hde hcond.1⟩,
        fun hk => absurd hk hnd, hto⟩

/-- Witness for C8 at concrete inputs: the timed-out run returns the empty
string, and the missing-parent run (no `makedirs`) returns `False` having
sent no request. -/
theorem get_file_timeout_vs_false_witness :
    (⟨PyRet.str [], ExitKind.timedOut, true, [], 0, [0]⟩ : GFResult).ret
        = PyRet.str [] ∧
    (⟨PyRet.fls, ExitKind.noDestDir, false, [], 0, []⟩ : GFResult).ret
        = PyRet.fls ∧
    (⟨PyRet.fls, ExitKind.noDestDir, false, [], 0, []⟩ : GFResult).locs
        = [] := by
  refine ⟨?_, ?_⟩
  · exact (get_file_timeout_vs_false idStr hashStub "/c".data serveTimeout
      "salt://f".data "/tmp/out".data false "base".data true 5
      ⟨PyRet.str [], ExitKind.timedOut, true, [], 0, [0]⟩
      (by decide)).2.2 (by decide)
  · exact (get_file_timeout_vs_false idStr hashStub "/c".data serveTimeout
      "salt://f".data "/tmp/out".data false "base".data false 5
      ⟨PyRet.fls, ExitKind.noDestDir, false, [], 0, []⟩
      (by decide)).2.1 (by decide)

theorem FTree.myInduct {motive : FTree → Prop}
    (h : ∀ subs files, (∀ s ∈ subs, motive s.2) → motive (.node subs files)) :
    ∀ t, motive t
  | .node subs files => h subs files (fun s hs => FTree.myInduct h s.2)
termination_by t => sizeOf t
decreasing_by
  have := List.sizeOf_lt_of_mem hs
  cases s
  simp at *
  omega

theorem mem_walkList (rel : Str) (l : List (Str × FTree)) (e : Entry) :
    e ∈ walkList rel l ↔ ∃ s ∈ l, e ∈ walkRel (relChild rel s.1) s.2 := by
  induction l with
  | nil => simp [walkList]
  | cons s rest ih =>
    rw [walkList]
    simp only [List.mem_append, ih, List.mem_cons]
    constructor
    · rintro (h | ⟨x, hx, he⟩)
      · exact ⟨s, Or.inl rfl, h⟩
      · exact ⟨x, Or.inr hx, he⟩
    · rintro ⟨x, hx | hx, he⟩
      · subst hx; exact Or.inl he
      · exact Or.inr ⟨x, hx, he⟩

theorem wfT_of_mem (l : List (Str × FTree)) (s : Str × FTree)
    (h : wfList l = true) (hs : s ∈ l) : wfT s.2 = true := by
  induction l with
  | nil => cases hs
  | cons x rest ih =>
    rw [wfList, Bool.and_eq_true] at h
    rcases h with ⟨h1, h2⟩
    rcases List.mem_cons.mp hs with he | hm
    · subst he; exact h1
    · exact ih h2 hm

theorem find_eq_of_nodupB (l : List (Str × FTree)) (s : Str × FTree)
    (hnd : nodupB (l.map Prod.fst) = true) (hs : s ∈ l) :
    l.find? (fun x => x.1 == s.1) = some s := by
  induction l with
  | nil => cases hs
  | cons x rest ih =>
    rw [List.map_cons, nodupB, Bool.and_eq_true] at hnd
    rcases hnd with ⟨h1, h2⟩
    rcases List.mem_cons.mp hs with he | hm
    · subst he
      simp [List.find?]
    · have hne : (x.1 == s.1) = false := by
        apply beq_eq_false_iff_ne.mpr
        intro hEq
        have hmm : s.1 ∈ rest.map Prod.fst := List.mem_map_of_mem Prod.fst hm
        rw [← hEq] at hmm
        have : (List.map Prod.fst rest).contains x.1 = true := List.elem_iff.mpr hmm
        rw [this] at h1
        cases h1
      rw [List.find?_cons, hne]
      exact ih h2 hm

theorem mem_walkRel_iff (t : FTree) : wfT t = true → ∀ (rel : Str) (e : Entry),
    (e ∈ walkRel rel t ↔ ∃ segs sub, dirAt t segs = some sub ∧
      e = (relFold rel segs, sub.subs.map Prod.fst, sub.fils)) := by
  induction t using FTree.myInduct with
  | h subs files ih =>
    intro hwf rel e
    rw [wfT, Bool.and_eq_true] at hwf
    rcases hwf with ⟨hnd, hwl⟩
    constructor
    · intro hmem
      rw [walkRel] at hmem
      rcases List.mem_cons.mp hmem with he | hm
      · exact ⟨[], FTree.node subs files, rfl,
          by simpa [relFold, FTree.subs, FTree.fils] using he⟩
      · rcases (mem_walkList rel subs e).mp hm with ⟨s, hs, hes⟩
        rcases (ih s hs (wfT_of_mem subs s hwl hs) (relChild rel s.1) e).mp hes
          with ⟨segs, sub, hd, hee⟩
        refine ⟨s.1 :: segs, sub, ?_, ?_⟩
        · rw [dirAt]
          rw [show (FTree.node subs files).subs = subs from rfl]
          rw [find_eq_of_nodupB subs s hnd hs]
          exact hd
        · rw [hee]
          rfl
    · rintro ⟨segs, sub, hd, hee⟩
      cases segs with
      | nil =>
        rw [dirAt] at hd
        injection hd with hd
        subst hd
        rw [walkRel]
        refine List.mem_cons.mpr (Or.inl ?_)
        simpa [relFold, FTree.subs, FTree.fils] using hee
      | cons n rest =>
        rw [dirAt] at hd
        cases hf : (FTree.node subs files).subs.find? (fun s => s.1 == n) with
        | none => rw [hf] at hd; cases hd
        | some s =>
          rw [hf] at hd
          have hsmem : s ∈ subs := by
            have hmo := List.mem_of_find?_eq_some hf
            simpa [FTree.subs] using hmo
          have hkey : s.1 = n := by
            have hps := List.find?_some hf
            simpa using hps
          have hwfs := wfT_of_mem subs s hwl hsmem
          have hrec := (ih s hsmem hwfs (relChild rel s.1) e).mpr
            ⟨rest, sub, hd, by rw [hee, ← hkey]; rfl⟩
          rw [walkRel]
          exact List.mem_cons.mpr
            (Or.inr ((mem_walkList rel subs e).mpr ⟨s, hsmem, hrec⟩))

theorem file_list_emptydirs_spec (file_roots : Str → Option (List FTree))
    (env p : Str)
    (hwf : ∀ t ∈ (file_roots env).getD [], wfT t = true) :
    p ∈ file_list_emptydirs file_roots env ↔
      ∃ t ∈ (file_roots env).getD [], ∃ segs : List Str,
        relFold ".".data segs = p ∧ dirAt t segs = some (FTree.node [] []) := by
  unfold file_list_emptydirs
  cases hr : file_roots env with
  | none => simp
  | some roots =>
    rw [hr] at hwf
    simp only [Option.getD_some] at hwf
    simp only [Option.getD_some]
    rw [List.mem_flatMap]
    constructor
    · rintro ⟨t, ht, hp⟩
      rcases List.mem_filterMap.mp hp with ⟨e, he, hfe⟩
      obtain ⟨e1, ds, fls⟩ := e
      have hcond : (ds.isEmpty && fls.isEmpty) = true ∧ e1 = p := by
        by_cases hc : (ds.isEmpty && fls.isEmpty) = true
        · rw [if_pos hc] at hfe
          injection hfe with hfe
          exact ⟨hc, hfe⟩
        · rw [if_neg hc] at hfe
          cases hfe
      rcases hcond with ⟨hc, he1⟩
      rw [Bool.and_eq_true] at hc
      have hds : ds = [] := by
        cases ds with
        | nil => rfl
        | cons a as => cases hc.1
      have hfls : fls = [] := by
        cases fls with
        | nil => rfl
        | cons a as => cases hc.2
      subst hds hfls he1
      rcases (mem_walkRel_iff t (hwf t ht) ".".data _).mp he
        with ⟨segs, sub, hd, hee⟩
      obtain ⟨ss, ff⟩ := sub
      injection hee with hee1 hee2
      injection hee2 with hee2 hee3
      have hss : ss = [] := by
        have h2 := hee2.symm
        rw [show (FTree.node ss ff).subs = ss from rfl] at h2
        exact List.map_eq_nil_iff.mp h2
      have hff : ff = [] := by
        have h3 := hee3.symm
        rw [show (FTree.node ss ff).fils = ff from rfl] at h3
        exact h3
      subst hss hff
      exact ⟨t, ht, segs, hee1.symm, hd⟩
    · rintro ⟨t, ht, segs, hrel, hd⟩
      refine ⟨t, ht, ?_⟩
      apply List.mem_filterMap.mpr
      refine ⟨(relFold ".".data segs, [], []), ?_, ?_⟩
      · exact (mem_walkRel_iff t (hwf t ht) ".".data _).mpr
          ⟨segs, FTree.node [] [], hd, rfl⟩
      · rw [hrel]
        rfl

theorem file_list_emptydirs_spec_witness :
    "a/b".data ∈ file_list_emptydirs frEx "base".data ∧
    file_list_emptydirs frEx "base".data = ["a/b".data] := by
  constructor
  · exact (file_list_emptydirs_spec frEx "base".data "a/b".data
      (by decide)).mpr
      ⟨FTree.node
        [("a".data, FTree.node [("b".data, FTree.node [] [])] []),
         ("c".data, FTree.node [] ["f.txt".data])] [],
       List.mem_cons_self _ _, ["a".data, "b".data], by decide, rfl⟩
  · decide

end FileClient
